import Mathlib

/-!
Verification of the firehose-grpc streaming engine (`src/firehose.rs`).

The Rust code is shallowly embedded: strings are `List Char` (the inputs in
question are ASCII hex tokens, where Rust's byte length and char count agree),
`u64`/`i64` are `Nat`/`Int` with explicit wrap-around at the casts the source
performs, and every fallible Rust path is made explicit in the `RRes` type,
whose `panic` constructor models Rust panics (out-of-bounds indexing, `expect`)
and whose `err` constructor models `anyhow::Result` errors propagated by `?`.

Modules of the repository that are not under `src/` (`cursor.rs`,
`datasource.rs`, the generated protobuf modules) contribute only data shapes
here; those carry doc comments starting `Modelled from the spec:`.
-/

namespace FirehoseSpec

/-- Rust strings, restricted to the ASCII hex tokens the engine handles. -/
abbrev Str := List Char

/-- Result of a Rust computation: `panic` models a Rust panic, `err` models an
`anyhow` error propagated with `?`, `ok` a successful value. -/
inductive RRes (α : Type) where
  | panic : RRes α
  | err : Str → RRes α
  | ok : α → RRes α
deriving DecidableEq

/-- Sequencing of fallible Rust computations (`?` plus panic propagation). -/
def RRes.bind : RRes α → (α → RRes β) → RRes β
  | .panic, _ => .panic
  | .err e, _ => .err e
  | .ok a, f => f a

def RRes.isPanic : RRes α → Bool
  | .panic => true
  | _ => false

def RRes.isErr : RRes α → Bool
  | .err _ => true
  | _ => false

def RRes.isOk : RRes α → Bool
  | .ok _ => true
  | _ => false

/-- `collect::<Result<Vec<_>>>()` over a lazily mapped iterator: elements are
converted left to right, stopping at the first error or panic. -/
def mapRR (f : α → RRes β) : List α → RRes (List β)
  | [] => .ok []
  | x :: xs =>
    match f x with
    | .panic => .panic
    | .err e => .err e
    | .ok y =>
      match mapRR f xs with
      | .panic => .panic
      | .err e => .err e
      | .ok ys => .ok (y :: ys)

/-- The wrapping cast `u64 as i64` the engine applies to source heights. -/
def u64_as_i64 (n : Nat) : Int :=
  if n < 2 ^ 63 then (n : Int) else (n : Int) - 2 ^ 64

/-- The wrapping cast `i64 as u64` the engine applies in its stop checks. -/
def i64_as_u64 (x : Int) : Nat := (x % 2 ^ 64).toNat

/-- `u64::try_from` on an `i64` value. -/
def u64_try_from (x : Int) : RRes Nat :=
  if 0 ≤ x then .ok x.toNat
  else .err "out of range integral type conversion attempted".toList

/-- `i64::abs` under release-profile overflow semantics: `i64::MIN` wraps to
itself; every other value maps to its absolute value. -/
def i64_abs (x : Int) : Int :=
  if x = -(2 ^ 63) then x else (x.natAbs : Int)

/-- `resolve_negative_start` (firehose.rs:20-34): a negative start block is an
offset from the data source's finalized height, clamped to zero by
`saturating_sub`; a non-negative start block is converted to `u64` directly. -/
def resolve_negative_start (start_block_num : Int) (finalized_height : Nat) :
    RRes Nat :=
  if start_block_num < 0 then
    match u64_try_from (i64_abs start_block_num) with
    | .panic => .panic
    | .err e => .err e
    | .ok delta =>
      if finalized_height > 0 then .ok (finalized_height - delta) else .ok 0
  else
    u64_try_from start_block_num

/-- Start resolution in `Firehose::blocks` (firehose.rs:115-119): the height
offset is resolved against the RPC adapter when one is configured and against
the portal otherwise. -/
def resolve_start (rpc_finalized : Option Nat) (portal_finalized : Nat)
    (start_block_num : Int) : RRes Nat :=
  match rpc_finalized with
  | some h => resolve_negative_start start_block_num h
  | none => resolve_negative_start start_block_num portal_finalized

/-- Value of one hex digit, accepting both cases as `hex::decode` does. -/
def hexDigitVal (c : Char) : Option Nat :=
  if '0' ≤ c ∧ c ≤ '9' then some (c.toNat - 48)
  else if 'a' ≤ c ∧ c ≤ 'f' then some (c.toNat - 87)
  else if 'A' ≤ c ∧ c ≤ 'F' then some (c.toNat - 55)
  else none

/-- Hex digits decoded two at a time into bytes; odd digit counts fail, as
`hex::decode` does for `Vec<u8>`. -/
def hexPairs : List Char → Option (List Nat)
  | [] => some []
  | [_] => none
  | c1 :: c2 :: rest =>
    match hexDigitVal c1, hexDigitVal c2, hexPairs rest with
    | some h, some l, some tail => some ((h * 16 + l) :: tail)
    | _, _, _ => none

/-- `prefix_hex::decode::<Vec<u8>>`: requires the literal `0x` prefix, then an
even number of hex digits. -/
def prefix_hex_decode : Str → Option (List Nat)
  | '0' :: 'x' :: rest => hexPairs rest
  | _ => none

/-- Lower-case hex character of a nibble, as `prefix_hex::encode` emits. -/
def hexChar (n : Nat) : Char :=
  if n < 10 then Char.ofNat (48 + n) else Char.ofNat (87 + n)

/-- `prefix_hex::encode` of a byte vector: `0x` then two lower-case digits per
byte. -/
def prefix_hex_encode (bytes : List Nat) : Str :=
  '0' :: 'x' :: bytes.flatMap (fun b => [hexChar (b / 16), hexChar (b % 16)])

/-- The `format!("invalid {}: {}", label, value)` error message. -/
def invalidMsg (label value : Str) : Str :=
  "invalid ".toList ++ label ++ ": ".toList ++ value

/-- `try_decode_hex` (firehose.rs:36-45): an odd-length value has its first two
characters replaced by `0x0` before decoding (the parity repair); an
even-length value is decoded directly.  The byte slice `&value[2..]` panics
when the value is a single character. -/
def try_decode_hex (label : Str) (value : Str) : RRes (List Nat) :=
  if value.length % 2 ≠ 0 then
    if value.length < 2 then .panic
    else
      let padded := '0' :: 'x' :: '0' :: value.drop 2
      match prefix_hex_decode padded with
      | some buf => .ok buf
      | none => .err (invalidMsg label padded)
  else
    match prefix_hex_decode value with
    | some buf => .ok buf
    | none => .err (invalidMsg label value)

/-- `str::trim_start_matches("0x")`: every leading occurrence of `0x` is
removed. -/
def trimStart0x : Str → Str
  | '0' :: 'x' :: rest => trimStart0x rest
  | s => s

/-- Base-16 value of a digit string; `none` on the empty string or any
non-hex character, as `u64::from_str_radix` fails there. -/
def parseHexDigits (s : Str) : Option Nat :=
  match s with
  | [] => none
  | _ =>
    s.foldl (fun acc c =>
      match acc, hexDigitVal c with
      | some n, some d => some (n * 16 + d)
      | _, _ => none) (some 0)

/-- `qty2int` (firehose.rs:47-49): strip leading `0x` occurrences and parse the
rest in base 16 as a `u64`; overflow past `u64::MAX` is an error. -/
def qty2int (value : Str) : RRes Nat :=
  match parseHexDigits (trimStart0x value) with
  | some n =>
    if n < 2 ^ 64 then .ok n
    else .err "number too large to fit in target type".toList
  | none => .err "invalid digit found in string".toList

/-- A valid hex input: the `0x` prefix followed by hex digits only. -/
def isHexInput (s : Str) : Bool :=
  decide (s.take 2 = ['0', 'x']) && (s.drop 2).all (fun c => (hexDigitVal c).isSome)

/-- Modelled from the spec: `HashAndHeight` (§3) from the missing
`datasource.rs` — a block height paired with its hex-string hash. -/
structure HashAndHeight where
  height : Nat
  hash : Str
deriving DecidableEq

/-- Modelled from the spec: the cursor token carries the last delivered block
and the finalized head known at that moment (§3, §4.3); `cursor.rs` is not
under `src/`.  Its string codec round-trips exactly, so responses are modelled
as carrying the `Cursor` value itself. -/
structure Cursor where
  block : HashAndHeight
  finalized : HashAndHeight
deriving DecidableEq

/-- `Cursor::new(block, finalized)`. -/
def Cursor.new (block finalized : HashAndHeight) : Cursor := ⟨block, finalized⟩

/-- `struct State(Option<HashAndHeight>)` (firehose.rs:51). -/
abbrev State := Option HashAndHeight

/-- `State::next_block` (firehose.rs:58-63); the `u64` increment wraps. -/
def State.next_block : State → Nat
  | some value => (value.height + 1) % 2 ^ 64
  | none => 0

/-- `State::current_block` (firehose.rs:65-70), with the `as i64` cast. -/
def State.current_block : State → Int
  | some value => u64_as_i64 value.height
  | none => -1

/-- `State::cursor` (firehose.rs:72-75); `none` models the `expect` panic on an
unset state. -/
def State.cursor : State → Option Cursor
  | some value => some (Cursor.new value value)
  | none => none

/-- `State::update` (firehose.rs:77-79). -/
def State.update (_ : State) (value : HashAndHeight) : State := some value

/-- Modelled from the spec: datasource trace kinds (§3); `datasource.rs` is not
under `src/`. -/
inductive TraceType where
  | create | call | suicide | reward
deriving DecidableEq

/-- Modelled from the spec: inner call kinds of a `Call` trace (§3). -/
inductive CallType where
  | callKind | callcode | delegatecall | staticcall
deriving DecidableEq

/-- Modelled from the spec: the action part of a trace, as the encoder reads it
(`action.from/to/value/gas/input/type`). -/
structure TraceAction where
  from_ : Option Str
  to_ : Option Str
  value : Option Str
  gas : Option Str
  input : Option Str
  r_type : Option CallType
deriving DecidableEq

/-- Modelled from the spec: the result part of a trace (`TraceResult`). -/
structure TraceResult where
  gas_used : Option Str
  address : Option Str
  output : Option Str
deriving DecidableEq

/-- Modelled from the spec: one trace of the internal block shape (§3). -/
structure Trace where
  r_type : TraceType
  transaction_index : Nat
  action : Option TraceAction
  result : Option TraceResult
  error : Option Str
  revert_reason : Option Str
deriving DecidableEq

/-- Modelled from the spec: one log of the internal block shape (§3). -/
structure Log where
  address : Str
  data : Str
  log_index : Nat
  transaction_index : Nat
  topics : List Str
deriving DecidableEq

/-- Modelled from the spec: one transaction of the internal block shape, with
the fields the encoder reads. -/
structure Transaction where
  to_ : Option Str
  nonce : Nat
  gas_price : Str
  gas : Str
  gas_used : Str
  value : Str
  input : Str
  v : Str
  r : Str
  s : Str
  r_type : Int
  max_fee_per_gas : Option Str
  max_priority_fee_per_gas : Option Str
  transaction_index : Nat
  hash : Str
  from_ : Str
  cumulative_gas_used : Str
deriving DecidableEq

/-- Modelled from the spec: the internal block header, with the fields the
encoder reads. -/
structure BlockHeader where
  number : Nat
  hash : Str
  parent_hash : Str
  size : Nat
  sha3_uncles : Str
  miner : Str
  state_root : Str
  transactions_root : Str
  receipts_root : Str
  logs_bloom : Str
  difficulty : Str
  total_difficulty : Str
  gas_limit : Str
  gas_used : Str
  timestamp : Nat
  extra_data : Str
  mix_hash : Str
  nonce : Str
  base_fee_per_gas : Option Str
deriving DecidableEq

/-- Modelled from the spec: the internal block shape (§3): a header plus flat
transaction, log and trace lists. -/
structure Block where
  header : BlockHeader
  transactions : List Transaction
  logs : List Log
  traces : List Trace
deriving DecidableEq

/-- `From<&Block> for HashAndHeight` as used at firehose.rs:192/238/306 and
spelled out at firehose.rs:278-282. -/
def Block.hh (b : Block) : HashAndHeight := ⟨b.header.number, b.header.hash⟩

/-- `pbcodec::BigInt`. -/
structure PbBigInt where
  bytes : List Nat
deriving DecidableEq

/-- `prost_types::Timestamp`. -/
structure PbTimestamp where
  seconds : Int
  nanos : Int
deriving DecidableEq

/-- `pbcodec::BlockHeader`, with the fields the encoder writes. -/
structure PbBlockHeader where
  parent_hash : List Nat
  uncle_hash : List Nat
  coinbase : List Nat
  state_root : List Nat
  transactions_root : List Nat
  receipt_root : List Nat
  logs_bloom : List Nat
  difficulty : Option PbBigInt
  total_difficulty : Option PbBigInt
  number : Nat
  gas_limit : Nat
  gas_used : Nat
  timestamp : Option PbTimestamp
  extra_data : List Nat
  mix_hash : List Nat
  nonce : Nat
  hash : List Nat
  base_fee_per_gas : Option PbBigInt
deriving DecidableEq

/-- `pbcodec::BlockHeader::default()`: prost defaults (zeroes, empties). -/
def pbBlockHeaderDefault : PbBlockHeader :=
  { parent_hash := [], uncle_hash := [], coinbase := [], state_root := []
    transactions_root := [], receipt_root := [], logs_bloom := []
    difficulty := none, total_difficulty := none, number := 0
    gas_limit := 0, gas_used := 0, timestamp := none, extra_data := []
    mix_hash := [], nonce := 0, hash := [], base_fee_per_gas := none }

/-- `pbcodec::Log`, with the fields the encoder writes. -/
structure PbLog where
  address : List Nat
  data : List Nat
  block_index : Nat
  topics : List (List Nat)
  index : Nat
  ordinal : Nat
deriving DecidableEq

/-- `pbcodec::Call`, with the fields the encoder writes plus `state_reverted`,
which `..Default::default()` leaves at `false`. -/
structure PbCall where
  call_type : Int
  caller : List Nat
  address : List Nat
  value : Option PbBigInt
  gas_limit : Nat
  gas_consumed : Nat
  return_data : List Nat
  input : List Nat
  status_failed : Bool
  status_reverted : Bool
  state_reverted : Bool
  failure_reason : Str
deriving DecidableEq

/-- `pbcodec::TransactionReceipt`, with the fields the encoder writes. -/
structure PbTransactionReceipt where
  state_root : List Nat
  cumulative_gas_used : Nat
  logs_bloom : List Nat
  logs : List PbLog
deriving DecidableEq

/-- `pbcodec::TransactionTrace`, with the fields the encoder writes. -/
structure PbTransactionTrace where
  to_ : List Nat
  nonce : Nat
  gas_price : Option PbBigInt
  gas_limit : Nat
  gas_used : Nat
  value : Option PbBigInt
  input : List Nat
  v : List Nat
  r : List Nat
  s : List Nat
  r_type : Int
  max_fee_per_gas : Option PbBigInt
  max_priority_fee_per_gas : Option PbBigInt
  index : Nat
  hash : List Nat
  from_ : List Nat
  return_data : List Nat
  public_key : List Nat
  status : Int
  receipt : Option PbTransactionReceipt
  calls : List PbCall
deriving DecidableEq

/-- `pbcodec::Block`, with the fields the encoder writes. -/
structure PbBlock where
  ver : Nat
  hash : List Nat
  number : Nat
  size : Nat
  header : Option PbBlockHeader
  transaction_traces : List PbTransactionTrace
deriving DecidableEq

/-- `pbcodec::Block::default()` (used for the synthetic UNDO block). -/
def pbBlockDefault : PbBlock :=
  { ver := 0, hash := [], number := 0, size := 0, header := none
    transaction_traces := [] }

/-- `pbcodec::TransactionTraceStatus` values, as `.into(): i32` yields them. -/
def statusUnknown : Int := 0
def statusSucceeded : Int := 1
def statusFailed : Int := 2
def statusReverted : Int := 3

/-- `i64::try_from` on a `u64` value (header timestamps). -/
def i64_try_from (n : Nat) : RRes Int :=
  if n < 2 ^ 63 then .ok (n : Int)
  else .err "out of range integral type conversion attempted".toList

/-- The `map_or(Ok(None), ...)` pattern decoding an optional hex quantity into
an optional `BigInt`. -/
def decodeOptBigInt (label : Str) (v : Option Str) : RRes (Option PbBigInt) :=
  match v with
  | none => .ok none
  | some val => (try_decode_hex label val).bind fun bytes => .ok (some ⟨bytes⟩)

/-- The zero address used as default for a missing `to` / trace result
address. -/
def zeroAddressStr : Str := "0x0000000000000000000000000000000000000000".toList

/-- `TryFrom<BlockHeader> for pbcodec::BlockHeader` (firehose.rs:414-453). -/
def pbBlockHeader_try_from (value : BlockHeader) : RRes PbBlockHeader :=
  (try_decode_hex "parent hash".toList value.parent_hash).bind fun parent_hash =>
  (try_decode_hex "sha3 uncles".toList value.sha3_uncles).bind fun uncle_hash =>
  (try_decode_hex "miner".toList value.miner).bind fun coinbase =>
  (try_decode_hex "state root".toList value.state_root).bind fun state_root =>
  (try_decode_hex "transactions root".toList value.transactions_root).bind fun transactions_root =>
  (try_decode_hex "receipts root".toList value.receipts_root).bind fun receipt_root =>
  (try_decode_hex "logs bloom".toList value.logs_bloom).bind fun logs_bloom =>
  (try_decode_hex "difficulty".toList value.difficulty).bind fun difficulty =>
  (try_decode_hex "total difficulty".toList value.total_difficulty).bind fun total_difficulty =>
  (qty2int value.gas_limit).bind fun gas_limit =>
  (qty2int value.gas_used).bind fun gas_used =>
  (i64_try_from value.timestamp).bind fun seconds =>
  (try_decode_hex "extra data".toList value.extra_data).bind fun extra_data =>
  (try_decode_hex "mix hash".toList value.mix_hash).bind fun mix_hash =>
  (qty2int value.nonce).bind fun nonce =>
  (try_decode_hex "hash".toList value.hash).bind fun hash =>
  (decodeOptBigInt "base fee per gas".toList value.base_fee_per_gas).bind fun base_fee_per_gas =>
  .ok { parent_hash, uncle_hash, coinbase, state_root, transactions_root
        receipt_root, logs_bloom, difficulty := some ⟨difficulty⟩
        total_difficulty := some ⟨total_difficulty⟩, number := value.number
        gas_limit, gas_used, timestamp := some ⟨seconds, 0⟩, extra_data
        mix_hash, nonce, hash, base_fee_per_gas }

/-- `TryFrom<Transaction> for pbcodec::TransactionTrace`
(firehose.rs:455-508); status starts `Unknown`, receipt and calls empty. -/
def pbTransactionTrace_try_from (value : Transaction) : RRes PbTransactionTrace :=
  (try_decode_hex "tx to".toList (value.to_.getD zeroAddressStr)).bind fun to_ =>
  (try_decode_hex "tx gas price".toList value.gas_price).bind fun gas_price =>
  (qty2int value.gas).bind fun gas_limit =>
  (qty2int value.gas_used).bind fun gas_used =>
  (try_decode_hex "tx value".toList value.value).bind fun val =>
  (try_decode_hex "tx input".toList value.input).bind fun input =>
  (try_decode_hex "tx v".toList value.v).bind fun v =>
  (try_decode_hex "tx r".toList value.r).bind fun r =>
  (try_decode_hex "tx s".toList value.s).bind fun s =>
  (decodeOptBigInt "tx max fee".toList value.max_fee_per_gas).bind fun max_fee_per_gas =>
  (decodeOptBigInt "tx max priority".toList value.max_priority_fee_per_gas).bind fun max_priority_fee_per_gas =>
  (try_decode_hex "tx hash".toList value.hash).bind fun hash =>
  (try_decode_hex "tx from".toList value.from_).bind fun from_ =>
  .ok { to_, nonce := value.nonce, gas_price := some ⟨gas_price⟩, gas_limit
        gas_used, value := some ⟨val⟩, input, v, r, s, r_type := value.r_type
        max_fee_per_gas, max_priority_fee_per_gas
        index := value.transaction_index, hash, from_, return_data := []
        public_key := [], status := statusUnknown, receipt := none
        calls := [] }

/-- `TryFrom<Log> for pbcodec::Log` (firehose.rs:510-525). -/
def pbLog_try_from (value : Log) : RRes PbLog :=
  (try_decode_hex "log address".toList value.address).bind fun address =>
  (try_decode_hex "log data".toList value.data).bind fun data =>
  (mapRR (fun topic => try_decode_hex "log topic".toList topic) value.topics).bind fun topics =>
  .ok { address, data, block_index := value.log_index, topics
        index := value.transaction_index, ordinal := 0 }

/-- `Option::context`: a missing value becomes an error with that message. -/
def orContext (msg : Str) : Option α → RRes α
  | some a => .ok a
  | none => .err msg

/-- `TryFrom<Trace> for pbcodec::Call` (firehose.rs:527-614).  `Create` traces
get `call_type = 5` and empty input/return data; `Call` traces map their inner
`CallType`; `Suicide`/`Reward` are rejected.  `state_reverted` is among the
`..Default::default()` fields and is always `false`. -/
def pbCall_try_from (value : Trace) : RRes PbCall :=
  match value.r_type with
  | .create =>
    (orContext "no action".toList value.action).bind fun action =>
    let result := value.result.getD ⟨none, none, none⟩
    (orContext "no gas".toList action.gas).bind fun gas =>
    let gas_used := result.gas_used.getD "0x0".toList
    (orContext "no from".toList action.from_).bind fun fromStr =>
    (try_decode_hex "trace from".toList fromStr).bind fun caller =>
    (try_decode_hex "trace address".toList (result.address.getD zeroAddressStr)).bind fun address =>
    (decodeOptBigInt "trace value".toList action.value).bind fun val =>
    (qty2int gas).bind fun gas_limit =>
    (qty2int gas_used).bind fun gas_consumed =>
    .ok { call_type := 5, caller, address, value := val, gas_limit
          gas_consumed, return_data := [], input := []
          status_failed := value.error.isSome || value.revert_reason.isSome
          status_reverted := value.revert_reason.isSome
          state_reverted := false
          failure_reason := value.error.getD (value.revert_reason.getD []) }
  | .call =>
    (orContext "no action".toList value.action).bind fun action =>
    let result := value.result.getD ⟨none, none, none⟩
    let call_type : Int :=
      match action.r_type with
      | some .callKind => 1
      | some .callcode => 2
      | some .delegatecall => 3
      | some .staticcall => 4
      | none => 0
    (orContext "no gas".toList action.gas).bind fun gas =>
    let gas_used := result.gas_used.getD "0x0".toList
    let output := result.output.getD "0x".toList
    (orContext "no from".toList action.from_).bind fun fromStr =>
    (try_decode_hex "trace from".toList fromStr).bind fun caller =>
    (orContext "no to".toList action.to_).bind fun toStr =>
    (try_decode_hex "trace to".toList toStr).bind fun address =>
    (decodeOptBigInt "trace value".toList action.value).bind fun val =>
    (qty2int gas).bind fun gas_limit =>
    (qty2int gas_used).bind fun gas_consumed =>
    (try_decode_hex "trace output".toList output).bind fun return_data =>
    (orContext "no input".toList action.input).bind fun inputStr =>
    (try_decode_hex "trace input".toList inputStr).bind fun input =>
    .ok { call_type, caller, address, value := val, gas_limit, gas_consumed
          return_data, input
          status_failed := value.error.isSome || value.revert_reason.isSome
          status_reverted := value.revert_reason.isSome
          state_reverted := false
          failure_reason := value.error.getD (value.revert_reason.getD []) }
  | .suicide => .err "unsupported trace type".toList
  | .reward => .err "unsupported trace type".toList

/-- `get_tx_trace_status` (firehose.rs:616-625): the status comes from the call
at index 0; indexing an empty call list panics. -/
def get_tx_trace_status (calls : List PbCall) : RRes Int :=
  match calls with
  | [] => .panic
  | call :: _ =>
    if call.status_failed && call.state_reverted then .ok statusReverted
    else if call.status_failed then .ok statusFailed
    else .ok statusSucceeded

/-- `prefix_hex::decode(..)?` applied directly (no parity repair), as at
firehose.rs:292 and firehose.rs:678. -/
def decodeConstHex (s : Str) : RRes (List Nat) :=
  match prefix_hex_decode s with
  | some b => .ok b
  | none => .err "invalid prefix-hex string".toList

/-- The all-zero logs-bloom constant of firehose.rs:678: `0x` followed by 512
zero digits. -/
def bloomConstStr : Str := '0' :: 'x' :: List.replicate 512 '0'

/-- The per-transaction log group: `logs_by_tx` (firehose.rs:631-641) keyed by
`transaction_index`, preserving the order of `value.logs`. -/
def txGroupLogs (logs : List Log) (idx : Nat) : List Log :=
  logs.filter (fun l => l.transaction_index == idx)

/-- The per-transaction trace group: `traces_by_tx` (firehose.rs:643-653). -/
def txGroupTraces (traces : List Trace) (idx : Nat) : List Trace :=
  traces.filter (fun t => t.transaction_index == idx)

/-- The `filter_map` keep-condition of firehose.rs:668-673: `Call` and `Create`
traces are converted, `Reward` and `Suicide` are dropped silently. -/
def traceKept (t : Trace) : Bool :=
  match t.r_type with
  | .call | .create => true
  | .suicide | .reward => false

/-- The `with_context(|| format!("log_index: {}", log_index))` wrapper. -/
def RRes.withCtx (ctx : Str) : RRes α → RRes α
  | .err e => .err (ctx ++ ": ".toList ++ e)
  | r => r

def logCtx (log : Log) : Str := "log_index: ".toList ++ (Nat.repr log.log_index).toList

/-- One transaction of the `transaction_traces` closure (firehose.rs:655-686):
its logs, then its kept traces, then the receipt, then the bare transaction
trace, then the status from the compiled call list. -/
def convTx (txLogs : List Log) (txTraces : List Trace) (tx : Transaction) :
    RRes PbTransactionTrace :=
  (mapRR (fun log => RRes.withCtx (logCtx log) (pbLog_try_from log)) txLogs).bind fun logs =>
  (mapRR pbCall_try_from (txTraces.filter traceKept)).bind fun calls =>
  (qty2int tx.cumulative_gas_used).bind fun cumulative_gas_used =>
  (decodeConstHex bloomConstStr).bind fun logs_bloom =>
  (pbTransactionTrace_try_from tx).bind fun tx_trace =>
  (get_tx_trace_status calls).bind fun status =>
  .ok { tx_trace with
        status := status,
        receipt := some ⟨[], cumulative_gas_used, logs_bloom, logs⟩,
        calls := calls }

/-- The transaction loop of `TryFrom<Block> for pbcodec::Block`: transactions
are converted left to right; `HashMap::remove` hands each `transaction_index`
group only to the first transaction bearing it, which the `consumed` list
records. -/
def convTxs (logs : List Log) (traces : List Trace) (consumed : List Nat) :
    List Transaction → RRes (List PbTransactionTrace)
  | [] => .ok []
  | tx :: txs =>
    let idx := tx.transaction_index
    let txLogs := if consumed.contains idx then [] else txGroupLogs logs idx
    let txTraces := if consumed.contains idx then [] else txGroupTraces traces idx
    match convTx txLogs txTraces tx with
    | .panic => .panic
    | .err e => .err e
    | .ok t =>
      match convTxs logs traces (idx :: consumed) txs with
      | .panic => .panic
      | .err e => .err e
      | .ok ts => .ok (t :: ts)

/-- `TryFrom<Block> for pbcodec::Block` (firehose.rs:627-701): the transaction
list is converted first, then the block hash is decoded and the header
converted. -/
def block_try_from (value : Block) : RRes PbBlock :=
  (convTxs value.logs value.traces [] value.transactions).bind fun transaction_traces =>
  (try_decode_hex "hash".toList value.header.hash).bind fun hash =>
  (pbBlockHeader_try_from value.header).bind fun header =>
  .ok { ver := 2, hash, number := value.header.number
        size := value.header.size, header := some header, transaction_traces }

/-- Modelled from the spec: `LogRequest` of `datasource.rs`, as the filter
compiler fills it. -/
structure LogRequest where
  address : List Str
  topic0 : List Str
  transaction : Bool
  transaction_traces : Bool
  transaction_logs : Bool
deriving DecidableEq

/-- Modelled from the spec: `TraceRequest` of `datasource.rs`, as the filter
compiler fills it. -/
structure TraceRequest where
  address : List Str
  sighash : List Str
  transaction : Bool
  transaction_logs : Bool
  parents : Bool
deriving DecidableEq

/-- Modelled from the spec: `TxRequest` of `datasource.rs`; only its `default()`
is used, so it is opaque here. -/
structure TxRequest : Type
deriving DecidableEq

/-- `LogRequest::default()`. -/
def logRequestDefault : LogRequest :=
  { address := [], topic0 := [], transaction := false
    transaction_traces := false, transaction_logs := false }

/-- `TraceRequest::default()`. -/
def traceRequestDefault : TraceRequest :=
  { address := [], sighash := [], transaction := false
    transaction_logs := false, parents := false }

/-- `pbtransforms::LogFilter`: addresses and event signatures as byte
vectors. -/
structure LogFilter where
  addresses : List (List Nat)
  event_signatures : List (List Nat)
deriving DecidableEq

/-- `pbtransforms::CallToFilter`. -/
structure CallToFilter where
  addresses : List (List Nat)
  signatures : List (List Nat)
deriving DecidableEq

/-- `From<LogFilter> for LogRequest` (firehose.rs:374-392): byte vectors are
hex-encoded; the implicit includes are all requested. -/
def logRequest_from (f : LogFilter) : LogRequest :=
  { address := f.addresses.map prefix_hex_encode
    topic0 := f.event_signatures.map prefix_hex_encode
    transaction := true, transaction_traces := true, transaction_logs := true }

/-- `From<CallToFilter> for TraceRequest` (firehose.rs:394-412). -/
def traceRequest_from (f : CallToFilter) : TraceRequest :=
  { address := f.addresses.map prefix_hex_encode
    sighash := f.signatures.map prefix_hex_encode
    transaction := true, transaction_logs := true, parents := true }

/-- Byte-lexicographic order on strings, the order of Rust's `Vec::sort` on
`String` (UTF-8 preserves code-point order). -/
def strLe : Str → Str → Bool
  | [], _ => true
  | _ :: _, [] => false
  | a :: as, b :: bs => if a = b then strLe as bs else decide (a.toNat < b.toNat)

def insertSorted (x : Str) : List Str → List Str
  | [] => [x]
  | y :: ys => if strLe x y then x :: y :: ys else y :: insertSorted x ys

/-- `Vec::sort` on strings.  Any correct sort of this total antisymmetric
order produces the same list, so insertion sort is an exact model. -/
def sortStrs (xs : List Str) : List Str := xs.foldr insertSorted []

/-- The address union of the merge rule (firehose.rs:148-152): each incoming
address is appended unless already present (`Vec::contains` then `push`). -/
def mergeAddresses (dst : List Str) : List Str → List Str
  | [] => dst
  | a :: rest =>
    if a ∈ dst then mergeAddresses dst rest
    else mergeAddresses (dst ++ [a]) rest

/-- The request built from one `LogFilter` before merging: converted, then its
`topic0` sorted (firehose.rs:143-144). -/
def sortedLogRequest (f : LogFilter) : LogRequest :=
  let lr := logRequest_from f
  { lr with topic0 := sortStrs lr.topic0 }

/-- The request built from one `CallToFilter` before merging
(firehose.rs:159-160). -/
def sortedTraceRequest (f : CallToFilter) : TraceRequest :=
  let tr := traceRequest_from f
  { tr with sighash := sortStrs tr.sighash }

/-- `iter_mut().find(..)` plus merge-or-push (firehose.rs:146-155): the first
accumulated request with an equal `topic0` absorbs the addresses; otherwise the
request is appended. -/
def insertLogRequest (logs : List LogRequest) (lr : LogRequest) : List LogRequest :=
  match logs with
  | [] => [lr]
  | l :: rest =>
    if l.topic0 = lr.topic0 then
      { l with address := mergeAddresses l.address lr.address } :: rest
    else l :: insertLogRequest rest lr

/-- Merge-or-push for call filters (firehose.rs:162-171). -/
def insertTraceRequest (traces : List TraceRequest) (tr : TraceRequest) : List TraceRequest :=
  match traces with
  | [] => [tr]
  | t :: rest =>
    if t.sighash = tr.sighash then
      { t with address := mergeAddresses t.address tr.address } :: rest
    else t :: insertTraceRequest rest tr

/-- The log-filter compilation loop of `Firehose::blocks` (firehose.rs:142-156)
over the flattened list of log filters of all transforms. -/
def compileLogFilters (filters : List LogFilter) : List LogRequest :=
  filters.foldl (fun logs f => insertLogRequest logs (sortedLogRequest f)) []

/-- The call-filter compilation loop (firehose.rs:158-172). -/
def compileCallFilters (filters : List CallToFilter) : List TraceRequest :=
  filters.foldl (fun traces f => insertTraceRequest traces (sortedTraceRequest f)) []

/-- Modelled from the spec: `DataRequest` of `datasource.rs` (§3). -/
structure DataRequest where
  from_ : Nat
  to_ : Option Nat
  logs : List LogRequest
  transactions : List TxRequest
  traces : List TraceRequest
deriving DecidableEq

/-- `pbfirehose::ForkStep`. -/
inductive ForkStep where
  | stepUnset | stepNew | stepUndo | stepFinal
deriving DecidableEq

/-- One streamed `Response`.  The source wraps the protobuf block in a typed
`Any` (constant `type_url`) and serializes the cursor; both encodings are
injective, so the response is modelled as carrying the values themselves. -/
structure Response where
  block : PbBlock
  step : ForkStep
  cursor : Cursor
deriving DecidableEq

/-- The finalized-block emission loop shared by phase A (firehose.rs:189-205)
and phase B (firehose.rs:235-251): for each delivered block the state is
updated, the block encoded, and a NEW response with the state's cursor
emitted.  The third component reports how the drain ended; responses already
emitted before an error or panic are kept, as the stream yields them before
dying.  The `none` arm of `State.cursor` models its `expect` panic. -/
def emitFinalized (state : State) : List Block → List Response × State × RRes Unit
  | [] => ([], state, .ok ())
  | block :: rest =>
    let state' := State.update state block.hh
    match block_try_from block with
    | .panic => ([], state', .panic)
    | .err e => ([], state', .err e)
    | .ok graph_block =>
      match State.cursor state' with
      | none => ([], state', .panic)
      | some cur =>
        let rec_ := emitFinalized state' rest
        ({ block := graph_block, step := .stepNew, cursor := cur } :: rec_.1,
          rec_.2.1, rec_.2.2)

/-- What one engine phase did: the `DataRequest` it issued (none when the
phase was skipped), the responses it emitted, the state it left behind, and
whether the subscription terminated at the stop block (`ok true`), fell
through (`ok false`), or died. -/
structure PhaseOutcome where
  request : Option DataRequest
  responses : List Response
  state : State
  outcome : RRes Bool
deriving DecidableEq

/-- Phase A — portal catch-up (firehose.rs:179-212).  Runs when the portal's
finalized height exceeds the current block (under the `as i64` cast) or no RPC
adapter is configured; `delivered` is the flattened batch stream the portal
returned for the issued request. -/
def phaseA (start_block : Nat) (to_block : Option Nat) (logs : List LogRequest)
    (traces : List TraceRequest) (portal_height : Nat) (rpc_configured : Bool)
    (delivered : List Block) (state : State) : PhaseOutcome :=
  if u64_as_i64 portal_height > State.current_block state ∨ rpc_configured = false then
    let req : DataRequest :=
      { from_ := max (State.next_block state) start_block, to_ := to_block
        logs := logs, transactions := [], traces := traces }
    let em := emitFinalized state delivered
    match em.2.2 with
    | .panic => ⟨some req, em.1, em.2.1, .panic⟩
    | .err e => ⟨some req, em.1, em.2.1, .err e⟩
    | .ok _ =>
      let terminated :=
        match to_block with
        | some tb => i64_as_u64 (State.current_block em.2.1) == tb
        | none => false
      ⟨some req, em.1, em.2.1, .ok terminated⟩
  else
    ⟨none, [], state, .ok false⟩

/-- Phase B — RPC finalized catch-up (firehose.rs:220-261).  Runs when the
RPC's finalized height exceeds the current block; the request range is capped
at `min(stop, rpc_height)`; after the drain the state is advanced to the cap
paired with `get_block_hash` of it (`hash_at`). -/
def phaseB (start_block : Nat) (to_block : Option Nat) (logs : List LogRequest)
    (traces : List TraceRequest) (rpc_height : Nat) (delivered : List Block)
    (hash_at : Nat → Str) (state : State) : PhaseOutcome :=
  if u64_as_i64 rpc_height > State.current_block state then
    let to_ :=
      match to_block with
      | some tb => min tb rpc_height
      | none => rpc_height
    let req : DataRequest :=
      { from_ := max (State.next_block state) start_block, to_ := some to_
        logs := logs, transactions := [], traces := traces }
    let em := emitFinalized state delivered
    match em.2.2 with
    | .panic => ⟨some req, em.1, em.2.1, .panic⟩
    | .err e => ⟨some req, em.1, em.2.1, .err e⟩
    | .ok _ =>
      let state2 := State.update em.2.1 ⟨to_, hash_at to_⟩
      let terminated :=
        match to_block with
        | some tb => i64_as_u64 (State.current_block state2) == tb
        | none => false
      ⟨some req, em.1, state2, .ok terminated⟩
  else
    ⟨none, [], state, .ok false⟩

/-- Modelled from the spec: `HotUpdate` (§3) of `datasource.rs` — a reorg-aware
record with the new base head, the finalized head, and the blocks descending
from the base head. -/
structure HotUpdate where
  base_head : HashAndHeight
  finalized_head : HashAndHeight
  blocks : List Block
deriving DecidableEq

/-- The block loop of phase C (firehose.rs:305-316): each hot block is encoded
and emitted as NEW with cursor `(block, finalized_head)`. -/
def emitHotBlocks (finalized_head : HashAndHeight) :
    List Block → List Response × RRes Unit
  | [] => ([], .ok ())
  | block :: rest =>
    let cursor := Cursor.new block.hh finalized_head
    match block_try_from block with
    | .panic => ([], .panic)
    | .err e => ([], .err e)
    | .ok graph_block =>
      let rec_ := emitHotBlocks finalized_head rest
      ({ block := graph_block, step := .stepNew, cursor := cursor } :: rec_.1, rec_.2)

/-- Processing of one `HotUpdate` in phase C (firehose.rs:272-319): compute the
bookkeeping head, emit a synthetic UNDO if the update's base head differs from
the last head (its block carries only `number = last_head.height` and
`parent_hash = base_head.hash`, its cursor is `(base_head, finalized_head)`),
then emit the update's blocks; returns the emitted responses and, on success,
the new `last_head`. -/
def processHotUpdate (last_head : HashAndHeight) (upd : HotUpdate) :
    List Response × RRes HashAndHeight :=
  let new_head :=
    match upd.blocks.getLast? with
    | none => upd.base_head
    | some b => HashAndHeight.mk b.header.number b.header.hash
  if upd.base_head ≠ last_head then
    match decodeConstHex upd.base_head.hash with
    | .panic => ([], .panic)
    | .err e => ([], .err e)
    | .ok parent_hash =>
      let cursor := Cursor.new upd.base_head upd.finalized_head
      let header := { pbBlockHeaderDefault with
                      number := last_head.height, parent_hash := parent_hash }
      let graph_block := { pbBlockDefault with header := some header }
      let undo : Response := { block := graph_block, step := .stepUndo, cursor := cursor }
      let em := emitHotBlocks upd.finalized_head upd.blocks
      (undo :: em.1, RRes.bind em.2 (fun _ => .ok new_head))
  else
    let em := emitHotBlocks upd.finalized_head upd.blocks
    (em.1, RRes.bind em.2 (fun _ => .ok new_head))

/-- How `Firehose::block` resolves a single-block request. -/
inductive SingleBlockOutcome where
  | viaPortal (req : DataRequest)
  | notFound (msg : Str)
deriving DecidableEq

def SingleBlockOutcome.isPortal : SingleBlockOutcome → Bool
  | .viaPortal _ => true
  | .notFound _ => false

/-- The source choice of `Firehose::block` for an (empty-transforms) request
(firehose.rs:337-359): the portal serves the block when `block_num` is within
the portal's finalized height; otherwise, with an RPC adapter whose finalized
height covers `block_num`, the portal is queried all the same; otherwise the
call fails with `"block isn't found"` (NotFound). -/
def single_block_source (portal_height : Nat) (rpc_height : Option Nat)
    (block_num : Nat) : SingleBlockOutcome :=
  let req : DataRequest :=
    { from_ := block_num, to_ := some block_num, logs := [logRequestDefault]
      transactions := [TxRequest.mk], traces := [traceRequestDefault] }
  if block_num ≤ portal_height then .viaPortal req
  else
    match rpc_height with
    | some rh =>
      if block_num ≤ rh then .viaPortal req
      else .notFound "block isn't found".toList
    | none => .notFound "block isn't found".toList

/-- A well-formed sample header used by concrete witnesses. -/
def sampleHeader : BlockHeader :=
  { number := 3, hash := "0x03".toList, parent_hash := "0x02".toList
    size := 1, sha3_uncles := "0x".toList, miner := "0x".toList
    state_root := "0x".toList, transactions_root := "0x".toList
    receipts_root := "0x".toList, logs_bloom := "0x".toList
    difficulty := "0x".toList, total_difficulty := "0x".toList
    gas_limit := "0x1".toList, gas_used := "0x1".toList, timestamp := 0
    extra_data := "0x".toList, mix_hash := "0x".toList, nonce := "0x1".toList
    base_fee_per_gas := none }

/-- A well-formed sample block (no transactions) used by concrete witnesses. -/
def sampleBlock : Block :=
  { header := sampleHeader, transactions := [], logs := [], traces := [] }

/-- A sample hot update reorging away from head 101 back to base head 99. -/
def sampleHotUpdate : HotUpdate :=
  { base_head := ⟨99, "0x63".toList⟩, finalized_head := ⟨90, "0x5a".toList⟩
    blocks := [sampleBlock] }

/-- `state_reverted` of a successful call conversion (`false` otherwise). -/
def stateRevertedOf : RRes PbCall → Bool
  | .ok c => c.state_reverted
  | _ => false

/-- Transaction traces of a successful block encoding (empty otherwise). -/
def resultTxs : RRes PbBlock → List PbTransactionTrace
  | .ok pb => pb.transaction_traces
  | _ => []

/-- Whether a transaction's conversion (with its full log/trace groups) avoids
an `anyhow` error (it may still panic). -/
def txConvClean (b : Block) (tx : Transaction) : Bool :=
  !(convTx (txGroupLogs b.logs tx.transaction_index)
      (txGroupTraces b.traces tx.transaction_index) tx).isErr

/-- Whether a transaction's compiled call list is empty: no traces for its
index, or only `Suicide`/`Reward` traces, which are filtered out. -/
def txEmptyCalls (b : Block) (tx : Transaction) : Bool :=
  ((txGroupTraces b.traces tx.transaction_index).filter traceKept).isEmpty

/-- A transaction with all fields well-formed except `cumulative_gas_used`. -/
def sampleTxBadReceipt : Transaction :=
  { to_ := none, nonce := 0, gas_price := "0x".toList, gas := "0x1".toList
    gas_used := "0x1".toList, value := "0x".toList, input := "0x".toList
    v := "0x".toList, r := "0x".toList, s := "0x".toList, r_type := 0
    max_fee_per_gas := none, max_priority_fee_per_gas := none
    transaction_index := 0, hash := "0x".toList, from_ := "0x".toList
    cumulative_gas_used := "zz".toList }

/-- A block whose only transaction has an empty call list but an invalid
receipt quantity. -/
def sampleBlockBadReceipt : Block :=
  { header := sampleHeader, transactions := [sampleTxBadReceipt]
    logs := [], traces := [] }

/-- A transaction with every field well-formed. -/
def sampleTxClean : Transaction :=
  { sampleTxBadReceipt with cumulative_gas_used := "0x1".toList }

/-- A block whose only transaction is well-formed but has no traces at all. -/
def sampleBlockEmptyCalls : Block :=
  { header := sampleHeader, transactions := [sampleTxClean]
    logs := [], traces := [] }

/-! ### Helper lemmas -/

theorem RRes.bind_ok (a : α) (f : α → RRes β) : RRes.bind (.ok a) f = f a := rfl

theorem RRes.bind_err (e : Str) (f : α → RRes β) :
    RRes.bind (.err e) f = (.err e : RRes β) := rfl

theorem RRes.bind_panic (f : α → RRes β) :
    RRes.bind (.panic : RRes α) f = (.panic : RRes β) := rfl

/-- A character with no hex value makes `hexPairs` fail. -/
theorem hexPairs_none_of_invalid (l : List Char) (c : Char) (hc : c ∈ l)
    (h : hexDigitVal c = none) : hexPairs l = none := by
  match l with
  | [] => cases hc
  | [a] => rfl
  | a :: b :: t =>
    rcases List.mem_cons.mp hc with rfl | hc
    · simp [hexPairs, h]
    · rcases List.mem_cons.mp hc with rfl | hc
      · simp only [hexPairs, h]
        cases hexDigitVal a <;> simp
      · have ht := hexPairs_none_of_invalid t c hc h
        simp only [hexPairs, ht]
        cases hexDigitVal a <;> cases hexDigitVal b <;> simp

theorem take_two_eq_prefix {s : Str} (h : s.take 2 = ['0', 'x']) :
    ∃ rest, s = '0' :: 'x' :: rest := by
  match s with
  | [] => simp at h
  | [a] => simp at h
  | a :: b :: t =>
    refine ⟨t, ?_⟩
    obtain ⟨ha, hb⟩ : a = '0' ∧ b = 'x' := by simpa [List.take] using h
    rw [ha, hb]

/-! ### C3 — start resolution -/

/-- C3 (counterexample): at `start_block_num = -2^63` (a representable request
value) the resolution is an error, not `max(0, H − |start_block_num|) = 0`:
`i64::abs` wraps and the `u64` conversion fails. -/
theorem C3_counterexample :
    (resolve_negative_start (-(2 ^ 63)) 5).isErr = true ∧
      resolve_negative_start (-(2 ^ 63)) 5 ≠ .ok 0 := by
  constructor <;> decide

/-- C3 (amended): for every `start_block_num` with `-2^63 < start_block_num
< 0` the resolved start equals `max(0, H − |start_block_num|)` where `H` is
the finalized height of the RPC adapter when configured and of the portal
otherwise; a non-negative `start_block_num` is used directly.  (At exactly
`-2^63` the code errors out, per `C3_counterexample`.) -/
theorem C3_start_resolution (rpc_finalized : Option Nat) (portal_finalized : Nat)
    (start_block_num : Int) (hmin : -(2 ^ 63) < start_block_num) :
    (start_block_num < 0 →
      resolve_start rpc_finalized portal_finalized start_block_num =
        .ok (((rpc_finalized.getD portal_finalized : Int) -
              (start_block_num.natAbs : Int)).toNat)) ∧
    (0 ≤ start_block_num →
      resolve_start rpc_finalized portal_finalized start_block_num =
        .ok start_block_num.toNat) := by
  have key : ∀ H : Nat, resolve_negative_start start_block_num H =
      (if start_block_num < 0 then
        .ok (((H : Int) - (start_block_num.natAbs : Int)).toNat)
      else .ok start_block_num.toNat) := by
    intro H
    by_cases hneg : start_block_num < 0
    · have habs : i64_abs start_block_num = (start_block_num.natAbs : Int) := by
        unfold i64_abs
        rw [if_neg (by omega)]
      have hnn : (0 : Int) ≤ (start_block_num.natAbs : Int) := by positivity
      simp only [resolve_negative_start, u64_try_from, habs, if_pos hneg, if_pos hnn]
      by_cases hH : H > 0
      · simp only [if_pos hH]
        congr 1
        omega
      · simp only [if_neg hH]
        congr 1
        omega
    · simp only [resolve_negative_start, u64_try_from, if_neg hneg]
      rw [if_pos (by omega : (0 : Int) ≤ start_block_num)]
  constructor
  · intro hneg
    cases rpc_finalized with
    | none => simp only [resolve_start, key, if_pos hneg, Option.getD]
    | some h => simp only [resolve_start, key, if_pos hneg, Option.getD]
  · intro hpos
    have hneg : ¬ start_block_num < 0 := by omega
    cases rpc_finalized with
    | none => simp only [resolve_start, key, if_neg hneg]
    | some h => simp only [resolve_start, key, if_neg hneg]

/-- C3 witness: with an RPC adapter at finalized height 100, `start = -10`
resolves to 90 and `start = 7` resolves to 7. -/
theorem C3_start_resolution_witness :
    resolve_start (some 100) 0 (-10) = .ok 90 ∧
      resolve_start (some 100) 0 7 = .ok 7 := by
  constructor
  · have h := (C3_start_resolution (some 100) 0 (-10) (by decide)).1 (by decide)
    simpa using h
  · have h := (C3_start_resolution (some 100) 0 7 (by decide)).2 (by decide)
    simpa using h

/-! ### C6 — hex parity repair -/

/-- C6 (counterexample): `"zx1"` is not valid hex, yet the decoder succeeds
on it (returning `0x01`): an odd-length input has its first two characters
replaced by the `0x0` padding unexamined, so their invalidity goes
undetected rather than producing a labeled error. -/
theorem C6_counterexample :
    isHexInput ['z', 'x', '1'] = false ∧
      try_decode_hex "tx hash".toList ['z', 'x', '1'] = .ok [1] := by
  constructor <;> decide

/-- C6 (amended): for every hex string beginning with `0x`: an odd digit part
decodes to exactly the bytes of `"0x0" + s[2:]`, an even digit part decodes
directly, and an invalid input fails with the labeled `invalid <label>: ..`
error.  (Odd-length inputs not beginning with `0x` escape the invalidity
check, per `C6_counterexample`.) -/
theorem C6_hex_parity_repair (label value : Str) :
    (value.take 2 = ['0', 'x'] → (value.drop 2).length % 2 = 1 → ∀ buf,
        (try_decode_hex label value = .ok buf ↔
          prefix_hex_decode ('0' :: 'x' :: '0' :: value.drop 2) = some buf)) ∧
    (value.take 2 = ['0', 'x'] → (value.drop 2).length % 2 = 0 → ∀ buf,
        (try_decode_hex label value = .ok buf ↔
          prefix_hex_decode value = some buf)) ∧
    (value.take 2 = ['0', 'x'] → isHexInput value = false →
      ∃ v, try_decode_hex label value = .err (invalidMsg label v)) := by
  refine ⟨?_, ?_, ?_⟩
  · intro hpre hodd buf
    obtain ⟨rest, rfl⟩ := take_two_eq_prefix hpre
    have hdrop : (('0' :: 'x' :: rest : Str)).drop 2 = rest := rfl
    rw [hdrop] at hodd ⊢
    have h1 : (rest.length + 1 + 1) % 2 = 1 := by omega
    have h2 : ¬ (rest.length + 1 + 1 < 2) := by omega
    cases hdec : prefix_hex_decode ('0' :: 'x' :: '0' :: rest) with
    | none => simp [try_decode_hex, h1, h2, hdrop, hdec]
    | some b => simp [try_decode_hex, h1, h2, hdrop, hdec, eq_comm]
  · intro hpre heven buf
    obtain ⟨rest, rfl⟩ := take_two_eq_prefix hpre
    have hdrop : (('0' :: 'x' :: rest : Str)).drop 2 = rest := rfl
    rw [hdrop] at heven
    have h1 : (rest.length + 1 + 1) % 2 = 0 := by omega
    cases hdec : prefix_hex_decode ('0' :: 'x' :: rest) with
    | none => simp [try_decode_hex, h1, hdec]
    | some b => simp [try_decode_hex, h1, hdec, eq_comm]
  · intro hpre hinv
    obtain ⟨rest, rfl⟩ := take_two_eq_prefix hpre
    have hdrop : (('0' :: 'x' :: rest : Str)).drop 2 = rest := rfl
    have hall : rest.all (fun c => (hexDigitVal c).isSome) = false := by
      have := hinv
      unfold isHexInput at this
      rw [hdrop] at this
      simpa [hpre] using this
    obtain ⟨c, hc, hcv⟩ : ∃ c ∈ rest, hexDigitVal c = none := by
      rcases List.all_eq_false.mp hall with ⟨c, hc, hnc⟩
      exact ⟨c, hc, Option.not_isSome_iff_eq_none.mp (by simpa using hnc)⟩
    by_cases hpar : rest.length % 2 = 0
    · have h1 : (rest.length + 1 + 1) % 2 = 0 := by omega
      have hdec : prefix_hex_decode ('0' :: 'x' :: rest) = none := by
        simp only [prefix_hex_decode]
        exact hexPairs_none_of_invalid rest c hc hcv
      exact ⟨'0' :: 'x' :: rest, by simp [try_decode_hex, h1, hdec]⟩
    · have h1 : (rest.length + 1 + 1) % 2 = 1 := by omega
      have h2 : ¬ (rest.length + 1 + 1 < 2) := by omega
      have hdec : prefix_hex_decode ('0' :: 'x' :: '0' :: rest) = none := by
        simp only [prefix_hex_decode]
        exact hexPairs_none_of_invalid ('0' :: rest) c (List.mem_cons_of_mem _ hc) hcv
      exact ⟨'0' :: 'x' :: '0' :: rest, by simp [try_decode_hex, h1, h2, hdrop, hdec]⟩

/-- C6 witness: the odd-length value `0x123` decodes to the bytes of
`0x0123`, namely `[0x01, 0x23]`. -/
theorem C6_hex_parity_repair_witness :
    try_decode_hex "tx v".toList "0x123".toList = .ok [1, 35] :=
  ((C6_hex_parity_repair "tx v".toList "0x123".toList).1
    (by decide) (by decide) [1, 35]).mpr (by decide)

/-! ### C7 — transaction status from the root call -/

/-- C7: the transaction status is derived solely from the call at index 0 of
the compiled call list (the tail is irrelevant): `Reverted` when the root
call has both `status_failed` and `state_reverted`, else `Failed` when it has
`status_failed`, else `Succeeded`. -/
theorem C7_tx_status_from_root (c : PbCall) (rest : List PbCall) :
    get_tx_trace_status (c :: rest) =
      .ok (if c.status_failed ∧ c.state_reverted then statusReverted
           else if c.status_failed then statusFailed
           else statusSucceeded) := by
  cases hf : c.status_failed <;> cases hs : c.state_reverted <;>
    simp [get_tx_trace_status, hf, hs]

/-! ### C4 — single-block resolution -/

/-- C4: a single-block request (with empty transforms) resolves via the portal
exactly when the height is within the portal's finalized height, or an RPC
adapter is configured whose finalized height covers it — in the latter case the
portal is still the queried source; in every other case the call fails with
the NotFound error `block isn't found`. -/
theorem C4_single_block_resolution (portal_height : Nat) (rpc_height : Option Nat)
    (block_num : Nat) :
    ((single_block_source portal_height rpc_height block_num).isPortal = true ↔
      (block_num ≤ portal_height ∨ ∃ rh, rpc_height = some rh ∧ block_num ≤ rh)) ∧
    ((single_block_source portal_height rpc_height block_num).isPortal = false →
      single_block_source portal_height rpc_height block_num =
        .notFound "block isn't found".toList) := by
  unfold single_block_source SingleBlockOutcome.isPortal
  by_cases h1 : block_num ≤ portal_height
  · simp [h1]
  · cases rpc_height with
    | none => simp [h1]
    | some rh => by_cases h2 : block_num ≤ rh <;> simp [h1, h2]

/-! ### C5 — filter merging -/

/-- Membership in the merged address list is membership in either side. -/
theorem mergeAddresses_mem (src : List Str) (dst : List Str) (a : Str) :
    a ∈ mergeAddresses dst src ↔ a ∈ dst ∨ a ∈ src := by
  induction src generalizing dst with
  | nil => simp [mergeAddresses]
  | cons x xs ih =>
    by_cases hx : x ∈ dst
    · rw [show mergeAddresses dst (x :: xs) = mergeAddresses dst xs from by
        simp [mergeAddresses, hx]]
      rw [ih]
      simp only [List.mem_cons]
      constructor
      · rintro (h | h) <;> tauto
      · rintro (h | rfl | h) <;> tauto
    · rw [show mergeAddresses dst (x :: xs) = mergeAddresses (dst ++ [x]) xs from by
        simp [mergeAddresses, hx]]
      rw [ih]
      simp only [List.mem_append, List.mem_singleton, List.mem_cons]
      tauto

/-- Merging never introduces duplicates beyond those already in `dst`. -/
theorem mergeAddresses_nodup (src : List Str) (dst : List Str) (h : dst.Nodup) :
    (mergeAddresses dst src).Nodup := by
  induction src generalizing dst with
  | nil => simpa [mergeAddresses] using h
  | cons x xs ih =>
    by_cases hx : x ∈ dst
    · rw [show mergeAddresses dst (x :: xs) = mergeAddresses dst xs from by
        simp [mergeAddresses, hx]]
      exact ih dst h
    · rw [show mergeAddresses dst (x :: xs) = mergeAddresses (dst ++ [x]) xs from by
        simp [mergeAddresses, hx]]
      exact ih (dst ++ [x]) (by simp [List.nodup_append, h, hx])

/-- Hex nibble characters are distinct. -/
theorem hexChar_inj : ∀ m, m < 16 → ∀ n, n < 16 → hexChar m = hexChar n → m = n := by
  decide

/-- `prefix_hex::encode` is injective on single bytes. -/
theorem prefix_hex_encode_byte_inj (x y : Nat) (hx : x < 256) (hy : y < 256)
    (h : prefix_hex_encode [x] = prefix_hex_encode [y]) : x = y := by
  have h2 : hexChar (x / 16) = hexChar (y / 16) ∧ hexChar (x % 16) = hexChar (y % 16) := by
    simpa [prefix_hex_encode] using h
  have e1 : x / 16 = y / 16 := hexChar_inj _ (by omega) _ (by omega) h2.1
  have e2 : x % 16 = y % 16 := hexChar_inj _ (by omega) _ (by omega) h2.2
  omega

/-- C5: two log filters are combined iff their sorted topic-0 lists are equal
(addresses then unioned without duplicates, the union holding exactly the
addresses of both sides); call filters likewise on their sorted sighash lists;
and in particular two log filters with the same single topic and distinct
single-byte addresses compile to one request carrying both addresses. -/
theorem C5_filter_merge :
    (∀ f1 f2 : LogFilter,
      (sortedLogRequest f1).topic0 = (sortedLogRequest f2).topic0 →
        compileLogFilters [f1, f2] =
          [{ sortedLogRequest f1 with
             address := mergeAddresses (sortedLogRequest f1).address
               (sortedLogRequest f2).address }]) ∧
    (∀ f1 f2 : LogFilter,
      (sortedLogRequest f1).topic0 ≠ (sortedLogRequest f2).topic0 →
        compileLogFilters [f1, f2] = [sortedLogRequest f1, sortedLogRequest f2]) ∧
    (∀ dst src : List Str, ∀ a,
      a ∈ mergeAddresses dst src ↔ a ∈ dst ∨ a ∈ src) ∧
    (∀ dst src : List Str, dst.Nodup → (mergeAddresses dst src).Nodup) ∧
    (∀ g1 g2 : CallToFilter,
      (sortedTraceRequest g1).sighash = (sortedTraceRequest g2).sighash →
        compileCallFilters [g1, g2] =
          [{ sortedTraceRequest g1 with
             address := mergeAddresses (sortedTraceRequest g1).address
               (sortedTraceRequest g2).address }]) ∧
    (∀ g1 g2 : CallToFilter,
      (sortedTraceRequest g1).sighash ≠ (sortedTraceRequest g2).sighash →
        compileCallFilters [g1, g2] =
          [sortedTraceRequest g1, sortedTraceRequest g2]) ∧
    (∀ x y z : Nat, x < 256 → y < 256 → x ≠ y →
      compileLogFilters [⟨[[x]], [[z]]⟩, ⟨[[y]], [[z]]⟩] =
        [{ address := [prefix_hex_encode [x], prefix_hex_encode [y]]
           topic0 := [prefix_hex_encode [z]]
           transaction := true, transaction_traces := true
           transaction_logs := true }]) := by
  have hlog : ∀ f1 f2 : LogFilter, compileLogFilters [f1, f2] =
      if (sortedLogRequest f1).topic0 = (sortedLogRequest f2).topic0 then
        [{ sortedLogRequest f1 with
           address := mergeAddresses (sortedLogRequest f1).address
             (sortedLogRequest f2).address }]
      else [sortedLogRequest f1, sortedLogRequest f2] := by
    intro f1 f2
    simp only [compileLogFilters, List.foldl_cons, List.foldl_nil, insertLogRequest]
  have htrace : ∀ g1 g2 : CallToFilter, compileCallFilters [g1, g2] =
      if (sortedTraceRequest g1).sighash = (sortedTraceRequest g2).sighash then
        [{ sortedTraceRequest g1 with
           address := mergeAddresses (sortedTraceRequest g1).address
             (sortedTraceRequest g2).address }]
      else [sortedTraceRequest g1, sortedTraceRequest g2] := by
    intro g1 g2
    simp only [compileCallFilters, List.foldl_cons, List.foldl_nil, insertTraceRequest]
  refine ⟨?_, ?_, ?_, ?_, ?_, ?_, ?_⟩
  · intro f1 f2 h
    rw [hlog, if_pos h]
  · intro f1 f2 h
    rw [hlog, if_neg h]
  · intro dst src a
    exact mergeAddresses_mem src dst a
  · intro dst src h
    exact mergeAddresses_nodup src dst h
  · intro g1 g2 h
    rw [htrace, if_pos h]
  · intro g1 g2 h
    rw [htrace, if_neg h]
  · intro x y z hx hy hxy
    have hne : prefix_hex_encode [y] ∉ [prefix_hex_encode [x]] := by
      simp only [List.mem_singleton]
      intro h
      exact hxy (prefix_hex_encode_byte_inj x y hx hy h.symm)
    have ht : (sortedLogRequest ⟨[[x]], [[z]]⟩).topic0 =
        (sortedLogRequest ⟨[[y]], [[z]]⟩).topic0 := rfl
    rw [hlog, if_pos ht]
    simp only [sortedLogRequest, logRequest_from, List.map_cons, List.map_nil,
      sortStrs, List.foldr_cons, List.foldr_nil, insertSorted]
    simp [mergeAddresses, hne]
    simpa using hne

/-- C5 witness: filters with addresses `{0x01}`, `{0x02}` and common topic
`0x03` compile to one request with both addresses. -/
theorem C5_filter_merge_witness :
    compileLogFilters [⟨[[1]], [[3]]⟩, ⟨[[2]], [[3]]⟩] =
      [{ address := [prefix_hex_encode [1], prefix_hex_encode [2]]
         topic0 := [prefix_hex_encode [3]]
         transaction := true, transaction_traces := true
         transaction_logs := true }] :=
  C5_filter_merge.2.2.2.2.2.2 1 2 3 (by decide) (by decide) (by decide)

/-! ### C1, C2, C10 — streaming phases -/

theorem RRes.isOk_iff (r : RRes α) : r.isOk = true ↔ ∃ a, r = .ok a := by
  cases r <;> simp [RRes.isOk]

/-- When every delivered block encodes, the finalized-emission loop drains
fully, emits one NEW response per block, and the response blocks are exactly
the encodings. -/
theorem emitFinalized_all_ok (bs : List Block) (state : State)
    (h : ∀ b ∈ bs, (block_try_from b).isOk = true) :
    (emitFinalized state bs).2.2 = .ok () ∧
    ((emitFinalized state bs).1).map Response.step =
      bs.map (fun _ => ForkStep.stepNew) ∧
    mapRR block_try_from bs = .ok (((emitFinalized state bs).1).map Response.block) := by
  induction bs generalizing state with
  | nil => simp [emitFinalized, mapRR]
  | cons b rest ih =>
    obtain ⟨gb, hgb⟩ := (RRes.isOk_iff _).mp (h b (by simp))
    obtain ⟨ih1, ih2, ih3⟩ :=
      ih (State.update state b.hh) (fun x hx => h x (by simp [hx]))
    have hc : State.cursor (State.update state b.hh) =
        some (Cursor.new b.hh b.hh) := rfl
    simp [emitFinalized, hgb, hc, mapRR, ih1, ih2, ih3]

/-- Every cursor attached by the finalized-emission loop has its finalized
component equal to its block component (`Cursor::new(value, value)`). -/
theorem emitFinalized_cursor_all (bs : List Block) (state : State) :
    ((emitFinalized state bs).1).all
      (fun r => r.cursor.finalized == r.cursor.block) = true := by
  induction bs generalizing state with
  | nil => simp [emitFinalized]
  | cons b rest ih =>
    cases hb : block_try_from b with
    | panic => simp [emitFinalized, hb]
    | err e => simp [emitFinalized, hb]
    | ok gb => simp [emitFinalized, hb, State.update, State.cursor, Cursor.new, ih]

/-- Every response of the hot-block loop is a NEW response whose cursor's
finalized component is the update's finalized head. -/
theorem emitHotBlocks_all (f : HashAndHeight) (bs : List Block) :
    ((emitHotBlocks f bs).1).all
      (fun r => r.step == ForkStep.stepNew && r.cursor.finalized == f) = true := by
  induction bs with
  | nil => simp [emitHotBlocks]
  | cons b rest ih =>
    cases hb : block_try_from b with
    | panic => simp [emitHotBlocks, hb]
    | err e => simp [emitHotBlocks, hb]
    | ok gb => simp [emitHotBlocks, hb, Cursor.new, ih]

/-- C1: on a hot update whose base head differs from the engine's last head
(and whose base-head hash is well-formed hex), the emitted sequence is exactly
one UNDO followed only by NEW responses; the UNDO's block carries
`number = last_head.height` and `parent_hash` = the bytes of `base_head.hash`,
and its cursor is `(base_head, finalized_head)`. -/
theorem C1_reorg_undo (last_head : HashAndHeight) (upd : HotUpdate)
    (hfork : upd.base_head ≠ last_head)
    (hhash : ∃ ph, prefix_hex_decode upd.base_head.hash = some ph) :
    ∃ ph tail,
      prefix_hex_decode upd.base_head.hash = some ph ∧
      (processHotUpdate last_head upd).1 =
        { block := { pbBlockDefault with header := some { pbBlockHeaderDefault with
                       number := last_head.height, parent_hash := ph } }
          step := .stepUndo
          cursor := Cursor.new upd.base_head upd.finalized_head } :: tail ∧
      (∀ r ∈ tail, r.step = ForkStep.stepNew) ∧
      (((processHotUpdate last_head upd).1).filter
        (fun r => r.step == ForkStep.stepUndo)).length = 1 := by
  obtain ⟨ph, hph⟩ := hhash
  have hnew : ∀ r ∈ (emitHotBlocks upd.finalized_head upd.blocks).1,
      r.step = ForkStep.stepNew := by
    intro r hr
    have := emitHotBlocks_all upd.finalized_head upd.blocks
    rw [List.all_eq_true] at this
    have := this r hr
    simp only [Bool.and_eq_true, beq_iff_eq] at this
    exact this.1
  refine ⟨ph, (emitHotBlocks upd.finalized_head upd.blocks).1, hph, ?_, hnew, ?_⟩
  · simp [processHotUpdate, hfork, decodeConstHex, hph]
  · have hresp : (processHotUpdate last_head upd).1 =
        { block := { pbBlockDefault with header := some { pbBlockHeaderDefault with
                       number := last_head.height, parent_hash := ph } }
          step := .stepUndo
          cursor := Cursor.new upd.base_head upd.finalized_head } ::
          (emitHotBlocks upd.finalized_head upd.blocks).1 := by
      simp [processHotUpdate, hfork, decodeConstHex, hph]
    rw [hresp]
    have htail : ((emitHotBlocks upd.finalized_head upd.blocks).1).filter
        (fun r => r.step == ForkStep.stepUndo) = [] := by
      rw [List.filter_eq_nil_iff]
      intro r hr
      simp [hnew r hr]
    simp [List.filter_cons, htail]

/-- C1 witness: a concrete reorg update produces exactly one UNDO. -/
theorem C1_reorg_undo_witness :
    (((processHotUpdate ⟨101, "0x65".toList⟩ sampleHotUpdate).1).filter
      (fun r => r.step == ForkStep.stepUndo)).length = 1 := by
  obtain ⟨ph, tail, h1, h2, h3, h4⟩ :=
    C1_reorg_undo ⟨101, "0x65".toList⟩ sampleHotUpdate (by decide) ⟨[99], by decide⟩
  exact h4

/-- C2: when the RPC finalized height exceeds the current block, phase B
requests `[max(next_block, start), min(stop, Hr)]` (or `Hr` with no stop),
emits one NEW response per delivered block (the encodings in order), and
after the drain advances the state to `(to', get_block_hash(to'))`. -/
theorem C2_phaseB_catchup (start_block : Nat) (to_block : Option Nat)
    (logs : List LogRequest) (traces : List TraceRequest) (rpc_height : Nat)
    (delivered : List Block) (hash_at : Nat → Str) (state : State)
    (hlt : rpc_height < 2 ^ 63)
    (hgt : (rpc_height : Int) > State.current_block state)
    (hok : ∀ b ∈ delivered, (block_try_from b).isOk = true) :
    (phaseB start_block to_block logs traces rpc_height delivered hash_at state).request =
      some { from_ := max (State.next_block state) start_block
             to_ := some ((to_block.map (fun tb => min tb rpc_height)).getD rpc_height)
             logs := logs, transactions := [], traces := traces } ∧
    ((phaseB start_block to_block logs traces rpc_height delivered hash_at state).responses).map
        Response.step = delivered.map (fun _ => ForkStep.stepNew) ∧
    mapRR block_try_from delivered =
      .ok (((phaseB start_block to_block logs traces rpc_height delivered hash_at
        state).responses).map Response.block) ∧
    (phaseB start_block to_block logs traces rpc_height delivered hash_at state).state =
      some ⟨(to_block.map (fun tb => min tb rpc_height)).getD rpc_height,
            hash_at ((to_block.map (fun tb => min tb rpc_height)).getD rpc_height)⟩ := by
  have hcond : u64_as_i64 rpc_height > State.current_block state := by
    unfold u64_as_i64
    rw [if_pos hlt]
    exact hgt
  obtain ⟨h1, h2, h3⟩ := emitFinalized_all_ok delivered state hok
  cases to_block with
  | none => simp [phaseB, hcond, h1, h2, h3, State.update]
  | some tb => simp [phaseB, hcond, h1, h2, h3, State.update]

/-- C2 witness: with RPC finalized height 5, no stop, and one delivered
block, the request spans `[0, 5]`, one NEW is emitted, and the state advances
to `(5, get_block_hash(5))`. -/
theorem C2_phaseB_catchup_witness :
    (phaseB 0 none [] [] 5 [sampleBlock] (fun _ => "0xab".toList) none).request =
      some { from_ := 0, to_ := some 5, logs := [], transactions := [], traces := [] } ∧
    ((phaseB 0 none [] [] 5 [sampleBlock] (fun _ => "0xab".toList) none).responses).map
      Response.step = [ForkStep.stepNew] ∧
    (phaseB 0 none [] [] 5 [sampleBlock] (fun _ => "0xab".toList) none).state =
      some ⟨5, "0xab".toList⟩ := by
  obtain ⟨h1, h2, h3, h4⟩ :=
    C2_phaseB_catchup 0 none [] [] 5 [sampleBlock] (fun _ => "0xab".toList) none
      (by decide) (by decide) (by decide)
  exact ⟨by simpa using h1, by simpa using h2, by simpa using h4⟩

/-- C10: every NEW response of phase A and phase B carries a cursor whose
finalized component equals the response's own block (the state's
`Cursor::new(value, value)`), not the source's finalized height; every phase C
response instead carries the hot update's `finalized_head`. -/
theorem C10_cursor_finalized (start_block : Nat) (to_block : Option Nat)
    (logs : List LogRequest) (traces : List TraceRequest)
    (portal_height rpc_height : Nat) (rpc_configured : Bool)
    (deliveredA deliveredB : List Block) (hash_at : Nat → Str) (state : State)
    (last_head : HashAndHeight) (upd : HotUpdate) :
    ((phaseA start_block to_block logs traces portal_height rpc_configured
        deliveredA state).responses).all
      (fun r => r.cursor.finalized == r.cursor.block) = true ∧
    ((phaseB start_block to_block logs traces rpc_height deliveredB hash_at
        state).responses).all
      (fun r => r.cursor.finalized == r.cursor.block) = true ∧
    ((processHotUpdate last_head upd).1).all
      (fun r => r.cursor.finalized == upd.finalized_head) = true := by
  have hhot : ((emitHotBlocks upd.finalized_head upd.blocks).1).all
      (fun r => r.cursor.finalized == upd.finalized_head) = true := by
    rw [List.all_eq_true]
    intro r hr
    have := emitHotBlocks_all upd.finalized_head upd.blocks
    rw [List.all_eq_true] at this
    have := this r hr
    simp only [Bool.and_eq_true, beq_iff_eq] at this ⊢
    exact this.2
  refine ⟨?_, ?_, ?_⟩
  · unfold phaseA
    split
    · cases hem : (emitFinalized state deliveredA).2.2 <;>
        simp [hem, ← emitFinalized_cursor_all deliveredA state, hem]
    · simp
  · unfold phaseB
    split
    · cases hem : (emitFinalized state deliveredB).2.2 <;>
        simp [hem, ← emitFinalized_cursor_all deliveredB state, hem]
    · simp
  · by_cases hf : upd.base_head ≠ last_head
    · cases hdec : decodeConstHex upd.base_head.hash with
      | panic => simp [processHotUpdate, hf, hdec]
      | err e => simp [processHotUpdate, hf, hdec]
      | ok ph => simp [processHotUpdate, hf, hdec, Cursor.new, hhot]
    · simp [processHotUpdate, hf, hhot]

/-! ### C9 — no transaction is ever `Reverted` -/

theorem RRes.bind_eq_ok {m : RRes α} {f : α → RRes β} {b : β} :
    RRes.bind m f = .ok b ↔ ∃ a, m = .ok a ∧ f a = .ok b := by
  cases m <;> simp [RRes.bind]

theorem stateRevertedOf_bind (m : RRes α) (f : α → RRes PbCall)
    (h : ∀ a, stateRevertedOf (f a) = false) :
    stateRevertedOf (RRes.bind m f) = false := by
  cases m with
  | panic => rfl
  | err e => rfl
  | ok a => exact h a

/-- The call translator leaves `state_reverted` at its default `false` in
every branch. -/
theorem pbCall_state_reverted (t : Trace) :
    stateRevertedOf (pbCall_try_from t) = false := by
  cases ht : t.r_type with
  | create =>
    simp only [pbCall_try_from, ht]
    repeat (apply stateRevertedOf_bind; intro _)
    rfl
  | call =>
    simp only [pbCall_try_from, ht]
    repeat (apply stateRevertedOf_bind; intro _)
    rfl
  | suicide =>
    simp [pbCall_try_from, ht, stateRevertedOf]
  | reward =>
    simp [pbCall_try_from, ht, stateRevertedOf]

theorem pbCall_state_reverted_eq (t : Trace) (c : PbCall)
    (h : pbCall_try_from t = .ok c) : c.state_reverted = false := by
  have hs := pbCall_state_reverted t
  rw [h] at hs
  exact hs

/-- Every element of a successful `mapRR` is a successful image. -/
theorem mapRR_ok_mem (f : α → RRes β) (xs : List α) (ys : List β)
    (h : mapRR f xs = .ok ys) : ∀ y ∈ ys, ∃ x, f x = .ok y := by
  induction xs generalizing ys with
  | nil =>
    simp only [mapRR, RRes.ok.injEq] at h
    subst h
    simp
  | cons x xs ih =>
    unfold mapRR at h
    cases hfx : f x with
    | panic => rw [hfx] at h; simp at h
    | err e => rw [hfx] at h; simp at h
    | ok y0 =>
      rw [hfx] at h
      cases hrec : mapRR f xs with
      | panic => rw [hrec] at h; simp at h
      | err e => rw [hrec] at h; simp at h
      | ok ys0 =>
        rw [hrec] at h
        simp only [RRes.ok.injEq] at h
        subst h
        intro y hy
        rcases List.mem_cons.mp hy with rfl | hy
        · exact ⟨x, hfx⟩
        · exact ih ys0 hrec y hy

/-- A status computed from calls that never set `state_reverted` is never
`Reverted`. -/
theorem get_tx_trace_status_ne_reverted (calls : List PbCall) (s : Int)
    (hall : ∀ c ∈ calls, c.state_reverted = false)
    (h : get_tx_trace_status calls = .ok s) : s ≠ statusReverted := by
  cases calls with
  | nil => simp [get_tx_trace_status] at h
  | cons c rest =>
    have hc := hall c (by simp)
    cases hf : c.status_failed <;>
      simp [get_tx_trace_status, hf, hc] at h <;>
      simp [← h, statusFailed, statusSucceeded, statusReverted]

/-- A successfully converted transaction never has status `Reverted`. -/
theorem convTx_status (txLogs : List Log) (txTraces : List Trace)
    (tx : Transaction) (tt : PbTransactionTrace)
    (h : convTx txLogs txTraces tx = .ok tt) : tt.status ≠ statusReverted := by
  unfold convTx at h
  rw [RRes.bind_eq_ok] at h
  obtain ⟨logs, hlogs, h⟩ := h
  rw [RRes.bind_eq_ok] at h
  obtain ⟨calls, hcalls, h⟩ := h
  rw [RRes.bind_eq_ok] at h
  obtain ⟨cum, hcum, h⟩ := h
  rw [RRes.bind_eq_ok] at h
  obtain ⟨bloom, hbloom, h⟩ := h
  rw [RRes.bind_eq_ok] at h
  obtain ⟨ttr, httr, h⟩ := h
  rw [RRes.bind_eq_ok] at h
  obtain ⟨st, hst, h⟩ := h
  have hall : ∀ c ∈ calls, c.state_reverted = false := by
    intro c hc
    obtain ⟨tr, htr⟩ := mapRR_ok_mem _ _ _ hcalls c hc
    exact pbCall_state_reverted_eq tr c htr
  have hne := get_tx_trace_status_ne_reverted calls st hall hst
  simp only [RRes.ok.injEq] at h
  subst h
  simpa using hne

/-- No transaction in a successfully converted list has status `Reverted`. -/
theorem convTxs_status (logs : List Log) (traces : List Trace) :
    ∀ (txs : List Transaction) (consumed : List Nat) (ts : List PbTransactionTrace),
      convTxs logs traces consumed txs = .ok ts →
      ∀ tt ∈ ts, tt.status ≠ statusReverted := by
  intro txs
  induction txs with
  | nil =>
    intro consumed ts h
    simp only [convTxs, RRes.ok.injEq] at h
    subst h
    simp
  | cons tx rest ih =>
    intro consumed ts h
    unfold convTxs at h
    simp only [] at h
    cases h1 : convTx
        (if consumed.contains tx.transaction_index then []
         else txGroupLogs logs tx.transaction_index)
        (if consumed.contains tx.transaction_index then []
         else txGroupTraces traces tx.transaction_index) tx with
    | panic => rw [h1] at h; simp at h
    | err e => rw [h1] at h; simp at h
    | ok t =>
      rw [h1] at h
      cases h2 : convTxs logs traces (tx.transaction_index :: consumed) rest with
      | panic => rw [h2] at h; simp at h
      | err e => rw [h2] at h; simp at h
      | ok ts0 =>
        rw [h2] at h
        simp only [RRes.ok.injEq] at h
        subst h
        intro tt htt
        rcases List.mem_cons.mp htt with rfl | htt
        · exact convTx_status _ _ _ _ h1
        · exact ih _ _ h2 tt htt

/-- No transaction of a successfully encoded block has status `Reverted`. -/
theorem block_no_reverted (b : Block) (pb : PbBlock)
    (h : block_try_from b = .ok pb) :
    ∀ tt ∈ pb.transaction_traces, tt.status ≠ statusReverted := by
  unfold block_try_from at h
  rw [RRes.bind_eq_ok] at h
  obtain ⟨ts, hts, h⟩ := h
  rw [RRes.bind_eq_ok] at h
  obtain ⟨hash, hhash, h⟩ := h
  rw [RRes.bind_eq_ok] at h
  obtain ⟨header, hheader, h⟩ := h
  simp only [RRes.ok.injEq] at h
  subst h
  simpa using convTxs_status b.logs b.traces b.transactions [] ts hts

/-- C9: the call translator only ever sets `status_reverted`, never
`state_reverted`, while the status computation tests `state_reverted`; hence
no transaction produced by the block encoder receives status `Reverted` — a
failed root call always yields `Failed`. -/
theorem C9_no_reverted_status :
    (∀ t : Trace, stateRevertedOf (pbCall_try_from t) = false) ∧
    (∀ b : Block, (resultTxs (block_try_from b)).all
      (fun tt => tt.status != statusReverted) = true) := by
  refine ⟨pbCall_state_reverted, ?_⟩
  intro b
  rw [List.all_eq_true]
  intro tt htt
  cases hb : block_try_from b with
  | panic => rw [hb] at htt; simp [resultTxs] at htt
  | err e => rw [hb] at htt; simp [resultTxs] at htt
  | ok pb =>
    rw [hb] at htt
    simp only [resultTxs] at htt
    have := block_no_reverted b pb hb tt htt
    simpa using this

/-! ### C8 — empty call lists panic the encoder -/

/-- C8 (counterexample): the claim is not universal — a block containing a
transaction with an empty compiled call list can still return an error rather
than panic, because the receipt conversion runs before the status computation:
here the transaction has no traces but an invalid `cumulative_gas_used`. -/
theorem C8_counterexample :
    (sampleBlockBadReceipt.transactions.any
      (fun tx => txEmptyCalls sampleBlockBadReceipt tx)) = true ∧
    (block_try_from sampleBlockBadReceipt).isPanic = false ∧
    (block_try_from sampleBlockBadReceipt).isErr = true := by
  refine ⟨by decide, by decide, by decide⟩

/-- A transaction whose kept trace list is empty can only panic or error:
its status computation indexes an empty call list. -/
theorem convTx_empty_calls (L : List Log) (T : List Trace) (tx : Transaction)
    (hT : T.filter traceKept = []) :
    convTx L T tx = .panic ∨ (convTx L T tx).isErr = true := by
  unfold convTx
  rw [hT]
  cases h1 : mapRR (fun log => RRes.withCtx (logCtx log) (pbLog_try_from log)) L with
  | panic => left; rfl
  | err e => right; rfl
  | ok logs =>
    cases h2 : qty2int tx.cumulative_gas_used with
    | panic => left; rfl
    | err e => right; rfl
    | ok cum =>
      cases h3 : decodeConstHex bloomConstStr with
      | panic => left; rfl
      | err e => right; rfl
      | ok bloom =>
        cases h4 : pbTransactionTrace_try_from tx with
        | panic => left; rfl
        | err e => right; rfl
        | ok ttr => left; rfl

/-- A consumed-index transaction (handed empty groups) panics whenever its
full-group conversion is error-free and its groups convert: the error sources
it shares with the full conversion are clean, so it reaches the status
computation with an empty call list. -/
theorem convTx_dup_panic (L : List Log) (T : List Trace) (tx : Transaction)
    (hl : ∃ ls, mapRR (fun log => RRes.withCtx (logCtx log) (pbLog_try_from log)) L = .ok ls)
    (hc : ∃ cs, mapRR pbCall_try_from (T.filter traceKept) = .ok cs)
    (hne : (convTx L T tx).isErr = false) :
    convTx [] [] tx = .panic := by
  obtain ⟨ls, hls⟩ := hl
  obtain ⟨cs, hcs⟩ := hc
  unfold convTx at hne
  rw [hls, hcs] at hne
  simp only [RRes.bind] at hne
  unfold convTx
  cases h2 : qty2int tx.cumulative_gas_used with
  | panic => rfl
  | err e =>
    rw [h2] at hne
    simp [RRes.bind, RRes.isErr] at hne
  | ok cum =>
    rw [h2] at hne
    simp only [RRes.bind] at hne
    cases h3 : decodeConstHex bloomConstStr with
    | panic => rfl
    | err e =>
      rw [h3] at hne
      simp [RRes.bind, RRes.isErr] at hne
    | ok bloom =>
      rw [h3] at hne
      simp only [RRes.bind] at hne
      cases h4 : pbTransactionTrace_try_from tx with
      | panic => rfl
      | err e =>
        rw [h4] at hne
        simp [RRes.bind, RRes.isErr] at hne
      | ok ttr => rfl

/-- The transaction loop panics when every transaction's full-group conversion
is error-free, every already-consumed index has convertible groups, and some
transaction's kept trace group is empty. -/
theorem convTxs_panic (logs : List Log) (traces : List Trace) :
    ∀ (txs : List Transaction) (consumed : List Nat),
      (∀ idx ∈ consumed,
        (∃ ls, mapRR (fun log => RRes.withCtx (logCtx log) (pbLog_try_from log))
            (txGroupLogs logs idx) = .ok ls) ∧
        (∃ cs, mapRR pbCall_try_from
            ((txGroupTraces traces idx).filter traceKept) = .ok cs)) →
      (∀ tx ∈ txs, (convTx (txGroupLogs logs tx.transaction_index)
          (txGroupTraces traces tx.transaction_index) tx).isErr = false) →
      (∃ tx ∈ txs, (txGroupTraces traces tx.transaction_index).filter traceKept = []) →
      (convTxs logs traces consumed txs).isPanic = true := by
  intro txs
  induction txs with
  | nil =>
    intro consumed _ _ hex
    simp at hex
  | cons tx rest ih =>
    intro consumed hinv hclean hex
    unfold convTxs
    simp only []
    by_cases hcon : consumed.contains tx.transaction_index = true
    · rw [if_pos hcon, if_pos hcon]
      have hmem : tx.transaction_index ∈ consumed := by
        simpa using hcon
      have hdup := convTx_dup_panic (txGroupLogs logs tx.transaction_index)
        (txGroupTraces traces tx.transaction_index) tx
        (hinv _ hmem).1 (hinv _ hmem).2 (hclean tx (by simp))
      rw [hdup]
      rfl
    · rw [if_neg hcon, if_neg hcon]
      cases h1 : convTx (txGroupLogs logs tx.transaction_index)
          (txGroupTraces traces tx.transaction_index) tx with
      | panic => rfl
      | err e =>
        have := hclean tx (by simp)
        rw [h1] at this
        simp [RRes.isErr] at this
      | ok t =>
        have hex' : ∃ tx0 ∈ rest,
            (txGroupTraces traces tx0.transaction_index).filter traceKept = [] := by
          rcases hex with ⟨tx0, htx0, hemp⟩
          rcases List.mem_cons.mp htx0 with rfl | htl
          · rcases convTx_empty_calls (txGroupLogs logs tx0.transaction_index)
                (txGroupTraces traces tx0.transaction_index) tx0 hemp with hpan | herr
            · rw [h1] at hpan
              simp at hpan
            · rw [h1] at herr
              simp [RRes.isErr] at herr
          · exact ⟨tx0, htl, hemp⟩
        have hinv' : ∀ idx ∈ tx.transaction_index :: consumed,
            (∃ ls, mapRR (fun log => RRes.withCtx (logCtx log) (pbLog_try_from log))
                (txGroupLogs logs idx) = .ok ls) ∧
            (∃ cs, mapRR pbCall_try_from
                ((txGroupTraces traces idx).filter traceKept) = .ok cs) := by
          intro idx hidx
          rcases List.mem_cons.mp hidx with rfl | hidx
          · have h1' := h1
            unfold convTx at h1'
            rw [RRes.bind_eq_ok] at h1'
            obtain ⟨ls, hls, h1''⟩ := h1'
            rw [RRes.bind_eq_ok] at h1''
            obtain ⟨cs, hcs, -⟩ := h1''
            exact ⟨⟨ls, hls⟩, ⟨cs, hcs⟩⟩
          · exact hinv idx hidx
        have hrec := ih (tx.transaction_index :: consumed) hinv'
          (fun x hx => hclean x (by simp [hx])) hex'
        cases h2 : convTxs logs traces (tx.transaction_index :: consumed) rest with
        | panic => rfl
        | err e =>
          rw [h2] at hrec
          simp [RRes.isPanic] at hrec
        | ok ts =>
          rw [h2] at hrec
          simp [RRes.isPanic] at hrec

/-- C8 (amended): `get_tx_trace_status` unconditionally reads index 0, so the
block encoder panics — rather than returning an error — on every block whose
transactions all convert error-free and which contains a transaction with an
empty compiled call list (no traces, or only `Suicide`/`Reward` traces).
Without the error-free proviso an earlier conversion error can preempt the
panic, per `C8_counterexample`. -/
theorem C8_empty_calls_panic (b : Block)
    (hclean : ∀ tx ∈ b.transactions, txConvClean b tx = true)
    (hempty : ∃ tx ∈ b.transactions, txEmptyCalls b tx = true) :
    (block_try_from b).isPanic = true := by
  have hclean' : ∀ tx ∈ b.transactions,
      (convTx (txGroupLogs b.logs tx.transaction_index)
        (txGroupTraces b.traces tx.transaction_index) tx).isErr = false := by
    intro tx htx
    have := hclean tx htx
    simpa [txConvClean] using this
  have hempty' : ∃ tx ∈ b.transactions,
      (txGroupTraces b.traces tx.transaction_index).filter traceKept = [] := by
    rcases hempty with ⟨tx, htx, he⟩
    exact ⟨tx, htx, by simpa [txEmptyCalls] using he⟩
  have hp := convTxs_panic b.logs b.traces b.transactions [] (by simp) hclean' hempty'
  unfold block_try_from
  cases hc : convTxs b.logs b.traces [] b.transactions with
  | panic => rfl
  | err e =>
    rw [hc] at hp
    simp [RRes.isPanic] at hp
  | ok ts =>
    rw [hc] at hp
    simp [RRes.isPanic] at hp

set_option maxRecDepth 10000 in
/-- C8 witness: a block whose only transaction is fully well-formed but has no
traces panics the encoder. -/
theorem C8_empty_calls_panic_witness :
    (block_try_from sampleBlockEmptyCalls).isPanic = true :=
  C8_empty_calls_panic sampleBlockEmptyCalls (by decide)
    ⟨sampleTxClean, by decide, by decide⟩

end FirehoseSpec
